import Mathlib

/-!
Verification of the natsjson library: a typed JSON convenience layer over a
NATS JetStream key-value store and pull consumer.

The development shallowly embeds the Go sources:

* kv.go: the hash-addressed key-value store (KV), its key-to-subject mapping
  (SHA-256 based), CRUD/history/optimistic-update operations, and the
  pull-based Iterator returned by List;
* batch.go: BatchProcessor.Process (fetch, decode, dispatch, ack/nack);
* the unnamed logged variant of BatchProcessor.Process (identical control
  flow plus slog calls and an error counter).

External collaborators (the broker, the Go json codec for the caller's type
T) are modelled as explicit function-valued fields, so every operation is a
pure function from those responses; side effects (acks, nacks, handler and
hook invocations, log lines) are recorded as an explicit event trace.
-/

namespace Natsjson

/-- A byte string, each element intended to be < 256 (Go []byte). -/
abbrev Bytes := List Nat

/-! ## SHA-256 (FIPS 180-4), used by kv.go's keyToSubject via crypto/sha256 -/

/-- Modulus for 32-bit words. -/
def M32 : Nat := 4294967296

/-- Addition modulo 2^32. -/
def add32 (a b : Nat) : Nat := (a + b) % M32

/-- Right rotation of a 32-bit word by n bits. -/
def rotr32 (n x : Nat) : Nat := ((x >>> n) + ((x <<< (32 - n)) % M32)) % M32

/-- Logical right shift. -/
def shr32 (n x : Nat) : Nat := x >>> n

/-- Three-way xor. -/
def xor3 (a b c : Nat) : Nat := Nat.xor (Nat.xor a b) c

/-- SHA-256 big sigma 0. -/
def bsig0 (x : Nat) : Nat := xor3 (rotr32 2 x) (rotr32 13 x) (rotr32 22 x)

/-- SHA-256 big sigma 1. -/
def bsig1 (x : Nat) : Nat := xor3 (rotr32 6 x) (rotr32 11 x) (rotr32 25 x)

/-- SHA-256 small sigma 0. -/
def ssig0 (x : Nat) : Nat := xor3 (rotr32 7 x) (rotr32 18 x) (shr32 3 x)

/-- SHA-256 small sigma 1. -/
def ssig1 (x : Nat) : Nat := xor3 (rotr32 17 x) (rotr32 19 x) (shr32 10 x)

/-- SHA-256 choice function. -/
def chf (x y z : Nat) : Nat := Nat.xor (Nat.land x y) (Nat.land (Nat.xor x 4294967295) z)

/-- SHA-256 majority function. -/
def majf (x y z : Nat) : Nat := xor3 (Nat.land x y) (Nat.land x z) (Nat.land y z)

/-- The 64 SHA-256 round constants of FIPS 180-4, written in decimal. -/
def K256 : List Nat :=
  [1116352408, 1899447441, 3049323471, 3921009573, 961987163, 1508970993,
   2453635748, 2870763221, 3624381080, 310598401, 607225278, 1426881987,
   1925078388, 2162078206, 2614888103, 3248222580, 3835390401, 4022224774,
   264347078, 604807628, 770255983, 1249150122, 1555081692, 1996064986,
   2554220882, 2821834349, 2952996808, 3210313671, 3336571891, 3584528711,
   113926993, 338241895, 666307205, 773529912, 1294757372, 1396182291,
   1695183700, 1986661051, 2177026350, 2456956037, 2730485921, 2820302411,
   3259730800, 3345764771, 3516065817, 3600352804, 4094571909, 275423344,
   430227734, 506948616, 659060556, 883997877, 958139571, 1322822218,
   1537002063, 1747873779, 1955562222, 2024104815, 2227730452, 2361852424,
   2428436474, 2756734187, 3204031479, 3329325298]

/-- The eight working variables of the SHA-256 state. -/
structure Hash8 where
  a : Nat
  b : Nat
  c : Nat
  d : Nat
  e : Nat
  f : Nat
  g : Nat
  h : Nat
  deriving Repr, DecidableEq

/-- The SHA-256 initial hash value of FIPS 180-4, written in decimal. -/
def H256 : Hash8 :=
  ⟨1779033703, 3144134277, 1013904242, 2773480762,
   1359893119, 2600822924, 528734635, 1541459225⟩

/-- Extend a 16-word block to the 64-word message schedule. -/
def schedule (block : List Nat) : List Nat :=
  (List.range 64).foldl
    (fun w t =>
      if t < 16 then w ++ [block.getD t 0]
      else
        w ++ [add32 (add32 (ssig1 (w.getD (t - 2) 0)) (w.getD (t - 7) 0))
                    (add32 (ssig0 (w.getD (t - 15) 0)) (w.getD (t - 16) 0))])
    []

/-- One SHA-256 compression round, consuming a (round constant, schedule word) pair. -/
def compressRound (st : Hash8) (kw : Nat × Nat) : Hash8 :=
  let t1 := add32 st.h (add32 (bsig1 st.e) (add32 (chf st.e st.f st.g) (add32 kw.1 kw.2)))
  let t2 := add32 (bsig0 st.a) (majf st.a st.b st.c)
  ⟨add32 t1 t2, st.a, st.b, st.c, add32 st.d t1, st.e, st.f, st.g⟩

/-- Componentwise 32-bit addition of hash states. -/
def addHash8 (x y : Hash8) : Hash8 :=
  ⟨add32 x.a y.a, add32 x.b y.b, add32 x.c y.c, add32 x.d y.d,
   add32 x.e y.e, add32 x.f y.f, add32 x.g y.g, add32 x.h y.h⟩

/-- Process one 512-bit block (given as 16 words) into the running hash. -/
def compressBlock (st : Hash8) (block : List Nat) : Hash8 :=
  addHash8 st ((K256.zip (schedule block)).foldl compressRound st)

/-- Big-endian byte representation of n in the given number of bytes. -/
def natToBytesBE (n len : Nat) : Bytes :=
  (List.range len).map (fun i => (n >>> (8 * (len - 1 - i))) % 256)

/-- Group bytes into big-endian 32-bit words (trailing incomplete group dropped;
inputs are always multiples of four bytes after padding). -/
def bytesToWords : Bytes → List Nat
  | b0 :: b1 :: b2 :: b3 :: rest =>
      (b0 * 16777216 + b1 * 65536 + b2 * 256 + b3) :: bytesToWords rest
  | _ => []

/-- Split a word list into chunks of 16 words; an incomplete trailing group is
dropped (padding always produces a multiple of 16 words, so none occurs). -/
def chunks16 : List Nat → List (List Nat)
  | w0 :: w1 :: w2 :: w3 :: w4 :: w5 :: w6 :: w7 ::
    w8 :: w9 :: w10 :: w11 :: w12 :: w13 :: w14 :: w15 :: rest =>
      [w0, w1, w2, w3, w4, w5, w6, w7, w8, w9, w10, w11, w12, w13, w14, w15] :: chunks16 rest
  | _ => []

/-- SHA-256 padding: append 0x80, zero bytes to 56 mod 64, then the 64-bit
big-endian bit length. -/
def padMessage (msg : Bytes) : Bytes :=
  msg ++ [128] ++ List.replicate ((119 - msg.length % 64) % 64) 0
      ++ natToBytesBE (8 * msg.length) 8

/-- Serialize the final state as 32 big-endian bytes. -/
def hash8ToBytes (st : Hash8) : Bytes :=
  natToBytesBE st.a 4 ++ natToBytesBE st.b 4 ++ natToBytesBE st.c 4 ++ natToBytesBE st.d 4 ++
  natToBytesBE st.e 4 ++ natToBytesBE st.f 4 ++ natToBytesBE st.g 4 ++ natToBytesBE st.h 4

/-- SHA-256 of a byte string (crypto/sha256's Sum for the written data). -/
def sha256 (msg : Bytes) : Bytes :=
  hash8ToBytes ((chunks16 (bytesToWords (padMessage msg))).foldl compressBlock H256)

/-! ## Lowercase hex encoding (encoding/hex.EncodeToString) -/

/-- The lowercase hexadecimal digit alphabet, as a character list. -/
def hexDigitChars : List Char :=
  "0123456789abcdef".data

/-- Two hex characters for one byte, high nibble first. -/
def hexByte (b : Nat) : List Char :=
  [hexDigitChars.getD (b / 16 % 16) '0', hexDigitChars.getD (b % 16) '0']

/-- Lowercase hex encoding of a byte string, as in Go's hex.EncodeToString. -/
def hexEncodeToString (bs : Bytes) : String :=
  String.mk (bs.flatMap hexByte)

/-! ## UTF-8 encoding of a Go string (the []byte(key) conversion) -/

/-- Standard UTF-8 encoding of one scalar value. -/
def utf8EncodeChar (c : Char) : Bytes :=
  let n := c.toNat
  if n < 128 then [n]
  else if n < 2048 then [192 + n / 64, 128 + n % 64]
  else if n < 65536 then [224 + n / 4096, 128 + n / 64 % 64, 128 + n % 64]
  else [240 + n / 262144, 128 + n / 4096 % 64, 128 + n / 64 % 64, 128 + n % 64]

/-- The UTF-8 bytes of a string, Go's []byte(s). -/
def utf8Bytes (s : String) : Bytes :=
  s.data.flatMap utf8EncodeChar

/-! ## Go error values as seen by kv.go

The code distinguishes errors only by these shapes: jetstream.ErrKeyNotFound
(compared with ==), JetStreamError values (matched by errors.As) that either
carry a non-nil APIError with an ErrorCode (jsApi) or a nil APIError
(jsNoApi), the package's own sentinel ErrOptimisticConcurrencyCheckFailed
(occCheckFailed), json codec errors, and everything else. -/
inductive GoErr where
  | keyNotFound
  | jsApi (code : Nat)
  | jsNoApi
  | occCheckFailed
  | jsonErr (msg : String)
  | other (msg : String)
  deriving Repr, DecidableEq

/-- A broker KV entry: stored bytes plus the broker-assigned revision. -/
structure KVEntry where
  value : Bytes
  revision : Nat
  deriving Repr, DecidableEq

/-- The watch handle returned by the broker's WatchAll: the payloads its
updates channel delivers before signalling completion, and the error its
Stop method returns. -/
structure Watcher where
  updates : List Bytes
  stopResult : Option GoErr
  deriving Repr, DecidableEq

/-- The broker's jetstream.KeyValue handle, modelled as its response
functions. Get/GetRevision/History return an entry or an error (a nil entry
with a non-nil error in Go); Put and Update return the Go (rev, err) pair;
Delete returns an error or nil; WatchAll either yields a watcher or fails. -/
structure JKeyValue where
  get : String → Except GoErr KVEntry
  getRevision : String → Nat → Except GoErr KVEntry
  history : String → Except GoErr (List KVEntry)
  put : String → Bytes → Nat × Option GoErr
  update : String → Bytes → Nat → Nat × Option GoErr
  delete : String → Option GoErr
  watchAll : Except GoErr Watcher

/-- The KV[T] struct of kv.go plus a model of the Go json codec for T:
enc is json.Marshal, dec is json.Unmarshal run against a zero value of T
(returning the post-call value, possibly partially written, and the error),
and zero is T's zero value. -/
structure KV (T : Type) where
  kv : JKeyValue
  subject : String
  enc : T → Except GoErr Bytes
  dec : Bytes → T × Option GoErr
  zero : T

variable {T : Type}

/-- The keyToSubject method of kv.go: subject + "." + hex(sha256(key)). -/
def KV.keyToSubject (db : KV T) (key : String) : String :=
  db.subject ++ "." ++ hexEncodeToString (sha256 (utf8Bytes key))

/-- The Get method of kv.go, returning (value, rev, ok, err). -/
def KV.Get (db : KV T) (key : String) : T × Nat × Bool × Option GoErr :=
  match db.kv.get (db.keyToSubject key) with
  | .error e =>
      if e = .keyNotFound then (db.zero, 0, false, none)
      else (db.zero, 0, false, some e)
  | .ok entry =>
      let (value, err) := db.dec entry.value
      (value, entry.revision, err.isNone, err)

/-- The GetRevision method of kv.go, returning (value, ok, err). -/
def KV.GetRevision (db : KV T) (key : String) (revision : Nat) : T × Bool × Option GoErr :=
  match db.kv.getRevision (db.keyToSubject key) revision with
  | .error e =>
      if e = .keyNotFound then (db.zero, false, none)
      else (db.zero, false, some e)
  | .ok entry =>
      let (value, err) := db.dec entry.value
      (value, err.isNone, err)

/-- The unmarshal loop of History: values is preallocated with zero values and
filled in place; on the first decode failure the loop returns early, leaving
the later slots at the zero value and the failed slot at whatever the decoder
wrote. -/
def KV.historyFill (db : KV T) : List KVEntry → List T × Option GoErr
  | [] => ([], none)
  | e :: rest =>
      let (v, err) := db.dec e.value
      match err with
      | some er => (v :: rest.map (fun _ => db.zero), some er)
      | none =>
          let (vs, err2) := db.historyFill rest
          (v :: vs, err2)

/-- The History method of kv.go, returning (values, ok, err). -/
def KV.History (db : KV T) (key : String) : List T × Bool × Option GoErr :=
  match db.kv.history (db.keyToSubject key) with
  | .error e =>
      if e = .keyNotFound then ([], false, none)
      else ([], false, some e)
  | .ok entries =>
      let (vs, err) := db.historyFill entries
      match err with
      | some er => (vs, false, some er)
      | none => (vs, true, none)

/-- The Put method of kv.go, returning (rev, err). -/
def KV.Put (db : KV T) (key : String) (value : T) : Nat × Option GoErr :=
  match db.enc value with
  | .error e => (0, some e)
  | .ok bs => db.kv.put (db.keyToSubject key) bs

/-- The Delete method of kv.go. -/
def KV.Delete (db : KV T) (key : String) : Option GoErr :=
  db.kv.delete (db.keyToSubject key)

/-- The jetstream error code for a wrong expected last sequence. -/
def JSErrCodeStreamWrongLastSequence : Nat := 10071

/-- Decides the condition of kv.go's Update error branch: errors.As finds a
JetStreamError, its APIError() is non-nil, and the ErrorCode equals
JSErrCodeStreamWrongLastSequence. -/
def isWrongLastSeq : GoErr → Bool
  | .jsApi code => code == JSErrCodeStreamWrongLastSequence
  | _ => false

/-- The Update method of kv.go, returning (rev, err): a conditional write
whose wrong-last-sequence fault is replaced by the
ErrOptimisticConcurrencyCheckFailed sentinel (with revision 0); every other
broker outcome is returned as-is. -/
def KV.Update (db : KV T) (key : String) (value : T) (last : Nat) : Nat × Option GoErr :=
  match db.enc value with
  | .error e => (0, some e)
  | .ok bs =>
      let (rev, err) := db.kv.update (db.keyToSubject key) bs last
      match err with
      | some e => if isWrongLastSeq e then (0, some .occCheckFailed) else (rev, some e)
      | none => (rev, none)

/-! ## The Iterator of kv.go and the List method

In kv.go, List builds an Iterator from one of two next closures: on WatchAll
failure, a closure that always returns (zero, false, err); on success, a
closure that receives from the watcher's updates channel — a nil update
means the source completed (a closed channel keeps yielding nil), otherwise
the payload is unmarshalled. IterSrc is the captured state of that closure:
the failure closure's fixed error, or the remaining channel contents. -/
inductive IterSrc (T : Type) where
  | failed (e : GoErr)
  | live (pending : List Bytes)
  deriving Repr, DecidableEq

/-- The Iterator struct of kv.go: the next closure's state, the Value and
Error fields written by Next, and the result the stop closure returns
(nil for the WatchAll-failure iterator, the watcher's Stop result otherwise). -/
structure Iterator (T : Type) where
  src : IterSrc T
  Value : T
  Error : Option GoErr
  stopResult : Option GoErr

/-- One call of the next closures created in KV.List: the result triple
(value, ok, err) and the updated closure state. The codec is taken from db,
which the Go closures capture. -/
def KV.iterNextFn (db : KV T) : IterSrc T → (T × Bool × Option GoErr) × IterSrc T
  | .failed e => ((db.zero, false, some e), .failed e)
  | .live [] => ((db.zero, false, none), .live [])
  | .live (p :: rest) =>
      let (v, err) := db.dec p
      match err with
      | some e => ((v, false, some e), .live rest)
      | none => ((v, true, none), .live rest)

/-- The Next method of Iterator: runs the next closure, stores Value and
Error, and returns ok. -/
def Iterator.Next (db : KV T) (it : Iterator T) : Bool × Iterator T :=
  let ((v, ok, err), src) := db.iterNextFn it.src
  (ok, { it with src := src, Value := v, Error := err })

/-- The Stop method of Iterator: runs the stop closure. -/
def Iterator.Stop (it : Iterator T) : Option GoErr :=
  it.stopResult

/-- The List method of kv.go: on WatchAll failure, an iterator whose next
closure always reports the error and whose stop closure returns nil;
otherwise an iterator over the watcher's updates whose stop is the
watcher's Stop. Value and Error start at their zero values (NewIterator). -/
def KV.List (db : KV T) : Iterator T :=
  match db.kv.watchAll with
  | .error e => { src := .failed e, Value := db.zero, Error := none, stopResult := none }
  | .ok w => { src := .live w.updates, Value := db.zero, Error := none, stopResult := w.stopResult }

/-- The iterator state after n calls of Next. -/
def nextN (db : KV T) (it : Iterator T) : Nat → Iterator T
  | 0 => it
  | n + 1 => (Iterator.Next db (nextN db it n)).2

/-! ## BatchProcessor

A fetched message: its payload and the results its Ack and Nak methods
return when called during this Process invocation. -/
structure Msg where
  data : Bytes
  ackResult : Option GoErr
  nakResult : Option GoErr
  deriving Repr, DecidableEq

/-- Observable side effects of one Process call, in order: positive and
negative acknowledgements (by position of the message in the fetched batch),
the handler invocation with its argument slice, ErrorHandler hook calls, and
log lines (for the logged variant). -/
inductive Event (T : Type) where
  | ack (i : Nat)
  | nak (i : Nat)
  | handlerCall (msgs : List T)
  | errorHandler (msg : T) (e : GoErr)
  | log (s : String)
  deriving Repr, DecidableEq

/-- The error values Process can return: the wrapped fetch error, the
errors.Join of an unmarshal error and a poison-ack error, the
handler-contract message carrying the expected and actual slice lengths, and
the errors.Join of the per-message ack/nack errors (returned only when at
least one is non-nil; joined carries the non-nil ones in order). -/
inductive ProcErr where
  | fetchFailed (e : GoErr)
  | unmarshalAck (de ae : GoErr)
  | handlerContract (want got : Nat)
  | ackNakJoined (errs : List GoErr)
  deriving Repr, DecidableEq

/-- A message that survived decoding: its decoded body, its position in the
fetched batch, and its handle (msgBodies and msgs are kept in lockstep in the
Go code; we keep one list of triples). -/
structure Retained (T : Type) where
  body : T
  idx : Nat
  msg : Msg
  deriving Repr, DecidableEq

/-- One Process invocation's inputs: the outcome of consumer.Fetch for this
call, the json codec for T, the caller's processor (one Option GoErr outcome
slot per message, none meaning success), and whether the optional
ErrorHandler hook is set. -/
structure BatchProcessor (T : Type) where
  fetchResult : Except GoErr (List Msg)
  dec : Bytes → T × Option GoErr
  processor : List T → List (Option GoErr)
  hasErrorHandler : Bool

/-- The errors.Join of the collected ack/nack errors: nil when every element
is nil, otherwise the non-nil ones. -/
def joinErrs (l : List (Option GoErr)) : Option ProcErr :=
  let es := l.filterMap id
  if es.isEmpty then none else some (.ackNakJoined es)

namespace B1

variable {T : Type}

/-- The decode loop of batch.go's Process (argument i is the position of the
head within the fetched batch): a message that fails to unmarshal is Acked
and skipped; if that Ack fails the loop aborts with the pair of errors;
otherwise the message is retained. Returns the emitted events and either the
abort pair or the retained messages in fetch order. -/
def decodeLoop (dec : Bytes → T × Option GoErr) :
    List Msg → Nat → List (Event T) × Except (GoErr × GoErr) (List (Retained T))
  | [], _ => ([], .ok [])
  | m :: rest, i =>
      let (fr, derr) := dec m.data
      match derr with
      | some de =>
          match m.ackResult with
          | some ae => ([Event.ack i], .error (de, ae))
          | none =>
              let (evs, r) := decodeLoop dec rest (i + 1)
              (Event.ack i :: evs, r)
      | none =>
          let (evs, r) := decodeLoop dec rest (i + 1)
          (evs, r.map (fun l => ⟨fr, i, m⟩ :: l))

/-- The ack/nack loop of batch.go's Process over the (retained message,
outcome) pairs: success acks, failure first runs the ErrorHandler hook when
set and then naks; every call's error is collected. Returns the events and
the nackAckErrs slice. -/
def resolveLoop (hasEH : Bool) :
    List (Retained T × Option GoErr) → List (Event T) × List (Option GoErr)
  | [] => ([], [])
  | (r, outcome) :: rest =>
      let (evs, aerrs) := resolveLoop hasEH rest
      match outcome with
      | none => (Event.ack r.idx :: evs, r.msg.ackResult :: aerrs)
      | some e =>
          ((if hasEH then [Event.errorHandler r.body e] else []) ++ Event.nak r.idx :: evs,
           r.msg.nakResult :: aerrs)

/-- The Process method of batch.go: fetch, decode (acking poison messages),
short-circuit on an empty decoded batch, dispatch to the processor, check the
outcome count, then ack/nack each message and join the collected errors.
Returns the Go error and the event trace. -/
def Process (bp : BatchProcessor T) : Option ProcErr × List (Event T) :=
  match bp.fetchResult with
  | .error e => (some (.fetchFailed e), [])
  | .ok batch =>
      let (devs, dres) := decodeLoop bp.dec batch 0
      match dres with
      | .error (de, ae) => (some (.unmarshalAck de ae), devs)
      | .ok retained =>
          if retained.isEmpty then (none, devs)
          else
            let bodies := retained.map (·.body)
            let outcomes := bp.processor bodies
            if outcomes.length ≠ retained.length then
              (some (.handlerContract retained.length outcomes.length),
               devs ++ [Event.handlerCall bodies])
            else
              let (revs, aerrs) := resolveLoop bp.hasErrorHandler (retained.zip outcomes)
              (joinErrs aerrs, devs ++ [Event.handlerCall bodies] ++ revs)

end B1

namespace B2

variable {T : Type}

/-- The decode loop of the logged Process (textually identical to batch.go's;
the logged variant emits no log line inside this loop). -/
def decodeLoop (dec : Bytes → T × Option GoErr) :
    List Msg → Nat → List (Event T) × Except (GoErr × GoErr) (List (Retained T))
  | [], _ => ([], .ok [])
  | m :: rest, i =>
      let (fr, derr) := dec m.data
      match derr with
      | some de =>
          match m.ackResult with
          | some ae => ([Event.ack i], .error (de, ae))
          | none =>
              let (evs, r) := decodeLoop dec rest (i + 1)
              (Event.ack i :: evs, r)
      | none =>
          let (evs, r) := decodeLoop dec rest (i + 1)
          (evs, r.map (fun l => ⟨fr, i, m⟩ :: l))

/-- The ack/nack loop of the logged Process: as batch.go's, but each failure
also logs a warning (before the hook) and increments errCount; the third
component is the final errCount. -/
def resolveLoop (hasEH : Bool) :
    List (Retained T × Option GoErr) → List (Event T) × List (Option GoErr) × Nat
  | [] => ([], [], 0)
  | (r, outcome) :: rest =>
      let (evs, aerrs, n) := resolveLoop hasEH rest
      match outcome with
      | none => (Event.ack r.idx :: evs, r.msg.ackResult :: aerrs, n)
      | some e =>
          (Event.log "Error processing message" ::
             ((if hasEH then [Event.errorHandler r.body e] else []) ++ Event.nak r.idx :: evs),
           r.msg.nakResult :: aerrs, n + 1)

/-- The Process method of the logged BatchProcessor variant: the same control
flow as batch.go's with slog Debug/Warn lines interleaved and an errCount
used only for the final log line. -/
def Process (bp : BatchProcessor T) : Option ProcErr × List (Event T) :=
  let l0 : List (Event T) := [Event.log "Fetching batch"]
  match bp.fetchResult with
  | .error e => (some (.fetchFailed e), l0)
  | .ok batch =>
      let l1 := l0 ++ [Event.log "Reading messages"]
      let (devs, dres) := decodeLoop bp.dec batch 0
      match dres with
      | .error (de, ae) => (some (.unmarshalAck de ae), l1 ++ devs)
      | .ok retained =>
          if retained.isEmpty then (none, l1 ++ devs ++ [Event.log "No messages, returning"])
          else
            let bodies := retained.map (·.body)
            let l2 := l1 ++ devs ++ [Event.log "Processing messages"]
            let outcomes := bp.processor bodies
            if outcomes.length ≠ retained.length then
              (some (.handlerContract retained.length outcomes.length),
               l2 ++ [Event.handlerCall bodies])
            else
              let l3 := l2 ++ [Event.handlerCall bodies] ++ [Event.log "Acknowledging messages"]
              let (revs, aerrs, _errCount) := resolveLoop bp.hasErrorHandler (retained.zip outcomes)
              (joinErrs aerrs, l3 ++ revs ++ [Event.log "Acknowledged messages"])

end B2

/-- Recognizes log events, the only observable difference between the two
Process implementations. -/
def isLogEvent : Event T → Bool
  | .log _ => true
  | _ => false

/-! ## Specification-side helper functions used to state the claims -/

/-- A default message, used with getD in statements. -/
def dMsg : Msg := ⟨[], none, none⟩

/-- A message is poison when its payload fails to decode. -/
def poison (dec : Bytes → T × Option GoErr) (m : Msg) : Bool :=
  ((dec m.data).2).isSome

/-- The decoded bodies of the non-poison messages of a batch, in fetch order. -/
def decodedBodies (dec : Bytes → T × Option GoErr) (batch : List Msg) : List T :=
  batch.filterMap (fun m =>
    let (v, e) := dec m.data
    if e.isSome then none else some v)

/-- The acknowledgement events the decode loop emits: one ack per poison
message, at its batch position. -/
def poisonAcks (dec : Bytes → T × Option GoErr) : List Msg → Nat → List (Event T)
  | [], _ => []
  | m :: rest, i =>
      (if poison dec m then [Event.ack i] else []) ++ poisonAcks dec rest (i + 1)

/-- The retained (non-poison) messages of a batch, with decoded bodies and
batch positions, in fetch order. -/
def retainedOf (dec : Bytes → T × Option GoErr) : List Msg → Nat → List (Retained T)
  | [], _ => []
  | m :: rest, i =>
      let (v, e) := dec m.data
      (if e.isSome then [] else [⟨v, i, m⟩]) ++ retainedOf dec rest (i + 1)

/-- The ack or nack error a (retained message, outcome) pair contributes:
the Nak result for a failure outcome, the Ack result for a success. -/
def opResult (p : Retained T × Option GoErr) : Option GoErr :=
  if p.2.isSome then p.1.msg.nakResult else p.1.msg.ackResult

/-- The events the ack/nack loop emits for one (retained message, outcome)
pair: an ack on success; on failure the hook call (when the hook is set)
immediately followed by a nak. -/
def resolveBlock (hasEH : Bool) (p : Retained T × Option GoErr) : List (Event T) :=
  match p.2 with
  | none => [Event.ack p.1.idx]
  | some e => (if hasEH then [Event.errorHandler p.1.body e] else []) ++ [Event.nak p.1.idx]

/-! ## Concrete instances used by witnesses and counterexamples -/

/-- A toy codec for T = Nat: a one-byte payload decodes to that byte,
anything else fails (used only to instantiate theorems). -/
def natDec : Bytes → Nat × Option GoErr :=
  fun b => (b.headD 0, if b.length == 1 then none else some (.jsonErr "invalid"))

/-- A broker handle whose conditional write reports a wrong-last-sequence
API error and whose reads report key-not-found. -/
def wJKV : JKeyValue where
  get _ := .error .keyNotFound
  getRevision _ _ := .error .keyNotFound
  history _ := .error .keyNotFound
  put _ _ := (0, none)
  update _ _ _ := (7, some (.jsApi 10071))
  delete _ := none
  watchAll := .error .jsNoApi

/-- A KV store over wJKV with the toy Nat codec. -/
def wKVjs : KV Nat where
  kv := wJKV
  subject := "users"
  enc n := .ok [n % 256]
  dec := natDec
  zero := 0

/-- A KV store whose WatchAll fails, for the List fail-closed witness. -/
def wKVwatchFail : KV Nat :=
  { wKVjs with kv := { wJKV with watchAll := .error (.other "conn") } }

/-- A KV store whose watch delivers an undecodable payload and then a good
one, exhibiting that a decode failure does not terminate iteration. -/
def cexKV : KV Nat :=
  { wKVjs with kv := { wJKV with watchAll := .ok ⟨[[], [5]], none⟩ } }

/-- A message that decodes to 7 under natDec; Ack and Nak succeed. -/
def mGood : Msg := ⟨[7], none, none⟩

/-- A message that decodes to 9 under natDec but whose Nak fails. -/
def mGoodNakFail : Msg := ⟨[9], none, some (.other "nakfail")⟩

/-- A poison message (empty payload) whose Ack succeeds. -/
def mPoison : Msg := ⟨[], none, none⟩

/-- A poison message whose Ack fails. -/
def mPoisonBadAck : Msg := ⟨[1, 2], some (.other "ackfail"), none⟩

/-- A batch with a poison message followed by a good one; all outcomes succeed. -/
def bpA : BatchProcessor Nat where
  fetchResult := .ok [mPoison, mGood]
  dec := natDec
  processor ms := ms.map (fun _ => none)
  hasErrorHandler := true

/-- A batch whose second message is poison with a failing Ack. -/
def bpB : BatchProcessor Nat where
  fetchResult := .ok [mGood, mPoisonBadAck, mGood]
  dec := natDec
  processor ms := ms.map (fun _ => none)
  hasErrorHandler := true

/-- A processor that violates the one-outcome-per-message contract. -/
def bpC : BatchProcessor Nat where
  fetchResult := .ok [mPoison, mGood]
  dec := natDec
  processor _ := []
  hasErrorHandler := true

/-- Two good messages; the second gets a failure outcome and its Nak fails. -/
def bpD : BatchProcessor Nat where
  fetchResult := .ok [mGood, mGoodNakFail]
  dec := natDec
  processor _ := [none, some (.other "boom")]
  hasErrorHandler := true

/-- A batch of only poison messages, all acks succeeding. -/
def bpE : BatchProcessor Nat where
  fetchResult := .ok [mPoison, mPoison]
  dec := natDec
  processor ms := ms.map (fun _ => none)
  hasErrorHandler := false

/-! # Theorems -/

/-! ## Sanity checks of the SHA-256 embedding against the FIPS 180-4 test vectors -/

/-- Sanity check: the digest of the empty message matches the published vector. -/
theorem sha256_empty_vector :
    hexEncodeToString (sha256 []) =
      "e3b0c44298fc1c149afbf4c8996fb92427ae41e4649b934ca495991b7852b855" := by
  rfl

/-- Sanity check: the digest of "abc" matches the published vector. -/
theorem sha256_abc_vector :
    hexEncodeToString (sha256 (utf8Bytes "abc")) =
      "ba7816bf8f01cfea414140de5dae2223b00361a396177a9cb410ff61f20015ad" := by
  rfl

/-! ## C6: the key-to-subject mapping -/

/-- Hex encoding produces only lowercase hexadecimal digit characters. -/
lemma hexEncode_chars (bs : Bytes) :
    ∀ c ∈ (hexEncodeToString bs).data, c ∈ hexDigitChars := by
  intro c hc
  have hc2 : c ∈ bs.flatMap hexByte := hc
  rcases List.mem_flatMap.mp hc2 with ⟨b, _, hcb⟩
  have hmem : ∀ i, i < 16 → hexDigitChars.getD i '0' ∈ hexDigitChars := by
    intro i hi
    interval_cases i <;> decide
  rcases List.mem_cons.mp hcb with rfl | h2
  · exact hmem _ (Nat.mod_lt _ (by norm_num))
  · rcases List.mem_cons.mp h2 with rfl | h3
    · exact hmem _ (Nat.mod_lt _ (by norm_num))
    · cases h3

/-- Big-endian serialization yields exactly the requested number of bytes. -/
lemma natToBytesBE_length (n len : Nat) : (natToBytesBE n len).length = len := by
  simp [natToBytesBE]

/-- A SHA-256 digest is 32 bytes. -/
lemma sha256_length (msg : Bytes) : (sha256 msg).length = 32 := by
  simp [sha256, hash8ToBytes, natToBytesBE_length]

/-- Hex encoding doubles the length. -/
lemma hexEncode_length (bs : Bytes) : (hexEncodeToString bs).length = 2 * bs.length := by
  have : (bs.flatMap hexByte).length = 2 * bs.length := by
    induction bs with
    | nil => rfl
    | cons b rest ih => simp [hexByte, ih]; omega
  simpa [hexEncodeToString, String.length] using this

/-- The History unmarshal loop reads only the codec and zero value, not the
broker handle. -/
lemma historyFill_kv_irrel (db : KV T) (kv2 : JKeyValue) (entries : List KVEntry) :
    KV.historyFill { db with kv := kv2 } entries = db.historyFill entries := by
  induction entries with
  | nil => rfl
  | cons e rest ih => simp only [KV.historyFill, ih]

/-- C6: keyToSubject is the pure total function
prefix ++ "." ++ lowercase-hex(sha256(utf8 key)): it equals that composition,
depends only on the prefix (same prefix and key always give the same
subject, whatever the broker handle or codec), and the hash part is 64
lowercase hex digit characters. Moreover every key-addressed operation
reaches the broker only at that subject: replacing the broker by any other
broker that agrees at keyToSubject(prefix,key) (for List: one that agrees on
the subject-free WatchAll call, the only broker access List makes) leaves
every operation's result unchanged. -/
theorem keyToSubject_contract (db : KV T) (key : String) :
    db.keyToSubject key = db.subject ++ "." ++ hexEncodeToString (sha256 (utf8Bytes key)) ∧
    (∀ db2 : KV T, db2.subject = db.subject → db2.keyToSubject key = db.keyToSubject key) ∧
    (∀ c ∈ (hexEncodeToString (sha256 (utf8Bytes key))).data, c ∈ hexDigitChars) ∧
    (hexEncodeToString (sha256 (utf8Bytes key))).length = 64 ∧
    (∀ kv2 : JKeyValue,
        kv2.get (db.keyToSubject key) = db.kv.get (db.keyToSubject key) →
        KV.Get { db with kv := kv2 } key = db.Get key) ∧
    (∀ kv2 : JKeyValue, ∀ revision,
        kv2.getRevision (db.keyToSubject key) revision =
          db.kv.getRevision (db.keyToSubject key) revision →
        KV.GetRevision { db with kv := kv2 } key revision = db.GetRevision key revision) ∧
    (∀ kv2 : JKeyValue,
        kv2.history (db.keyToSubject key) = db.kv.history (db.keyToSubject key) →
        KV.History { db with kv := kv2 } key = db.History key) ∧
    (∀ kv2 : JKeyValue, ∀ value,
        (∀ bs, kv2.put (db.keyToSubject key) bs = db.kv.put (db.keyToSubject key) bs) →
        KV.Put { db with kv := kv2 } key value = db.Put key value) ∧
    (∀ kv2 : JKeyValue, ∀ value last,
        (∀ bs, kv2.update (db.keyToSubject key) bs last =
                 db.kv.update (db.keyToSubject key) bs last) →
        KV.Update { db with kv := kv2 } key value last = db.Update key value last) ∧
    (∀ kv2 : JKeyValue,
        kv2.delete (db.keyToSubject key) = db.kv.delete (db.keyToSubject key) →
        KV.Delete { db with kv := kv2 } key = db.Delete key) ∧
    (∀ kv2 : JKeyValue, kv2.watchAll = db.kv.watchAll →
        KV.List { db with kv := kv2 } = db.List) := by
  have hsub : ∀ kv2 : JKeyValue, KV.keyToSubject { db with kv := kv2 } key = db.keyToSubject key :=
    fun _ => rfl
  refine ⟨rfl, fun db2 h2 => ?_, hexEncode_chars _, ?_, ?_, ?_, ?_, ?_, ?_, ?_, ?_⟩
  · simp [KV.keyToSubject, h2]
  · rw [hexEncode_length, sha256_length]
  · intro kv2 h
    simp only [KV.Get, hsub, h]
  · intro kv2 revision h
    simp only [KV.GetRevision, hsub, h]
  · intro kv2 h
    simp only [KV.History, hsub, h, historyFill_kv_irrel]
  · intro kv2 value h
    simp only [KV.Put, hsub, h]
  · intro kv2 value last h
    simp only [KV.Update, hsub, h]
  · intro kv2 h
    simp only [KV.Delete, hsub, h]
  · intro kv2 h
    simp only [KV.List, h]

/-- Witness for C6 at a concrete store and key: the composed form of the
subject, and one agreement conjunct applied to the broker itself. -/
theorem keyToSubject_contract_w :
    wKVjs.keyToSubject "user1" =
      "users" ++ "." ++ hexEncodeToString (sha256 (utf8Bytes "user1")) ∧
    KV.Get { wKVjs with kv := wKVjs.kv } "user1" = wKVjs.Get "user1" := by
  have h := keyToSubject_contract wKVjs "user1"
  exact ⟨h.1, h.2.2.2.2.1 wKVjs.kv rfl⟩

/-! ## C1: Update maps exactly the wrong-last-sequence fault to the sentinel -/

/-- C1: when the broker's conditional write reports the wrong-expected-sequence
fault (a JetStreamError whose non-nil APIError carries
JSErrCodeStreamWrongLastSequence), Update returns revision 0 and exactly the
ErrOptimisticConcurrencyCheckFailed sentinel; any other broker error shape
(hence any error with isWrongLastSeq false) is passed through unchanged
together with the broker's revision, so no other shape is mapped to the
sentinel; a successful broker write is also passed through. -/
theorem update_occ_mapping (db : KV T) (key : String) (value : T) (last : Nat)
    (bs : Bytes) (henc : db.enc value = .ok bs) :
    (∀ rev e, db.kv.update (db.keyToSubject key) bs last = (rev, some e) →
        (isWrongLastSeq e = true →
            db.Update key value last = (0, some GoErr.occCheckFailed)) ∧
        (isWrongLastSeq e = false →
            db.Update key value last = (rev, some e))) ∧
    (∀ rev, db.kv.update (db.keyToSubject key) bs last = (rev, none) →
        db.Update key value last = (rev, none)) := by
  constructor
  · intro rev e hupd
    constructor
    · intro hseq
      simp [KV.Update, henc, hupd, hseq]
    · intro hseq
      simp [KV.Update, henc, hupd, hseq]
  · intro rev hupd
    simp [KV.Update, henc, hupd]

/-- Witness for C1 at a concrete store: a wrong-last-sequence fault yields
(0, sentinel), and a differently shaped fault passes through. -/
theorem update_occ_mapping_w :
    wKVjs.Update "k" 5 1 = (0, some GoErr.occCheckFailed) :=
  ((update_occ_mapping wKVjs "k" 5 1 [5] rfl).1 7 (GoErr.jsApi 10071) rfl).1 rfl

/-! ## C7: absence is a flag, never an error -/

/-- C7: when the broker reports key-not-found, Get returns the zero value,
revision 0, found=false and no error; GetRevision returns the zero value,
found=false and no error; History returns the empty sequence, found=false
and no error. -/
theorem notfound_is_flag (db : KV T) (key : String) (revision : Nat)
    (hget : db.kv.get (db.keyToSubject key) = .error .keyNotFound)
    (hgetRev : db.kv.getRevision (db.keyToSubject key) revision = .error .keyNotFound)
    (hhist : db.kv.history (db.keyToSubject key) = .error .keyNotFound) :
    db.Get key = (db.zero, 0, false, none) ∧
    db.GetRevision key revision = (db.zero, false, none) ∧
    db.History key = ([], false, none) := by
  refine ⟨?_, ?_, ?_⟩
  · simp [KV.Get, hget]
  · simp [KV.GetRevision, hgetRev]
  · simp [KV.History, hhist]

/-- Witness for C7 at a concrete store whose broker reports key-not-found. -/
theorem notfound_is_flag_w :
    wKVjs.Get "missing" = (0, 0, false, none) ∧
    wKVjs.GetRevision "missing" 1 = (0, false, none) ∧
    wKVjs.History "missing" = ([], false, none) :=
  notfound_is_flag wKVjs "missing" 1 rfl rfl rfl

/-! ## C8 and C9: the Iterator -/

/-- An iterator in the WatchAll-failure state keeps that state and its stop
result across any number of Next calls. -/
lemma nextN_failed (db : KV T) (it : Iterator T) (e : GoErr) (h : it.src = .failed e) :
    ∀ n, (nextN db it n).src = .failed e ∧ (nextN db it n).stopResult = it.stopResult := by
  intro n
  induction n with
  | zero => exact ⟨h, rfl⟩
  | succ n ih =>
      refine ⟨?_, ?_⟩ <;> simp only [nextN, Iterator.Next, KV.iterNextFn, ih.1, ih.2]

/-- An iterator whose source is exhausted keeps that state across any number
of Next calls. -/
lemma nextN_exhausted (db : KV T) (it : Iterator T) (h : it.src = .live []) :
    ∀ n, (nextN db it n).src = .live [] := by
  intro n
  induction n with
  | zero => exact h
  | succ n ih => simp only [nextN, Iterator.Next, KV.iterNextFn, ih]

/-- C8: List never fails as a call. When the watch subscription cannot be
established, the iterator List returns starts with no error, its Stop returns
nil, and every Next call (the first and all subsequent ones) produces no item
while exposing the subscription error, with Stop still returning nil. -/
theorem list_fails_closed (db : KV T) (e : GoErr)
    (hw : db.kv.watchAll = .error e) :
    (db.List).Error = none ∧ Iterator.Stop (db.List) = none ∧
    ∀ n : Nat,
      (Iterator.Next db (nextN db (db.List) n)).1 = false ∧
      (Iterator.Next db (nextN db (db.List) n)).2.Error = some e ∧
      Iterator.Stop (nextN db (db.List) n) = none := by
  have hlist : db.List = ⟨.failed e, db.zero, none, none⟩ := by
    simp [KV.List, hw]
  refine ⟨by rw [hlist], by rw [hlist]; rfl, ?_⟩
  intro n
  have hsrc := nextN_failed db (db.List) e (by rw [hlist]) n
  refine ⟨?_, ?_, ?_⟩
  · simp only [Iterator.Next, KV.iterNextFn, hsrc.1]
  · simp only [Iterator.Next, KV.iterNextFn, hsrc.1]
  · rw [Iterator.Stop, hsrc.2, hlist]

/-- Witness for C8 at a concrete store whose WatchAll fails. -/
theorem list_fails_closed_w :
    (wKVwatchFail.List).Error = none ∧
    (Iterator.Next wKVwatchFail (nextN wKVwatchFail (wKVwatchFail.List) 3)).1 = false ∧
    (Iterator.Next wKVwatchFail (nextN wKVwatchFail (wKVwatchFail.List) 3)).2.Error =
      some (GoErr.other "conn") := by
  have h := list_fails_closed wKVwatchFail (GoErr.other "conn") rfl
  exact ⟨h.1, (h.2.2 3).1, (h.2.2 3).2.1⟩

/-- Counterexample to C9 as stated: on a live watch whose first payload fails
to decode, the first Next signals failure, yet the second Next produces an
item (ok=true with a value), so a failed Next does not make further Next
calls return "no item". -/
theorem iterator_failure_not_terminal_cex :
    (Iterator.Next cexKV (cexKV.List)).1 = false ∧
    (Iterator.Next cexKV (cexKV.List)).2.Error = some (GoErr.jsonErr "invalid") ∧
    (Iterator.Next cexKV (Iterator.Next cexKV (cexKV.List)).2).1 = true ∧
    (Iterator.Next cexKV (Iterator.Next cexKV (cexKV.List)).2).2.Value = 5 := by
  decide

/-- C9 (amended): once a Next call has signaled exhaustion (source completed),
every further Next call deterministically returns "no item" with no error; a
decode failure on an emitted item fails that single Next call — ok=false with
the decode error exposed, the item is not silently skipped — but does not
terminate iteration: the source state advances to the remaining updates, so a
subsequent Next may produce a value. (In the WatchAll-failure state, Next
deterministically reports the subscription error forever; see
list_fails_closed.) -/
theorem iterator_terminal_amended (db : KV T) (itE itF : Iterator T)
    (p : Bytes) (rest : List Bytes) (v : T) (e : GoErr)
    (hE : itE.src = .live [])
    (hF : itF.src = .live (p :: rest))
    (hdec : db.dec p = (v, some e)) :
    (∀ n, (Iterator.Next db (nextN db itE n)).1 = false ∧
          (Iterator.Next db (nextN db itE n)).2.Error = none) ∧
    ((Iterator.Next db itF).1 = false ∧
     (Iterator.Next db itF).2.Error = some e ∧
     (Iterator.Next db itF).2.Value = v ∧
     (Iterator.Next db itF).2.src = .live rest) := by
  constructor
  · intro n
    have hsrc := nextN_exhausted db itE hE n
    constructor
    · simp only [Iterator.Next, KV.iterNextFn, hsrc]
    · simp only [Iterator.Next, KV.iterNextFn, hsrc]
  · refine ⟨?_, ?_, ?_, ?_⟩ <;> simp only [Iterator.Next, KV.iterNextFn, hF, hdec]

/-- Witness for the amended C9: exhaustion is sticky on a concrete iterator,
and a concrete decode failure leaves the remaining updates pending. -/
theorem iterator_terminal_amended_w :
    (Iterator.Next cexKV (nextN cexKV ⟨.live [], 0, none, none⟩ 2)).1 = false ∧
    (Iterator.Next cexKV (cexKV.List)).2.src = .live [[5]] := by
  have h := iterator_terminal_amended cexKV ⟨.live [], 0, none, none⟩ (cexKV.List)
    [] [[5]] 0 (GoErr.jsonErr "invalid") rfl rfl rfl
  exact ⟨(h.1 2).1, h.2.2.2.2⟩

/-! ## BatchProcessor: supporting lemmas -/

/-- When every poison message's Ack succeeds, the decode loop completes,
emitting exactly one ack per poison message and retaining exactly the
non-poison messages in fetch order. -/
lemma decodeLoop_ok (dec : Bytes → T × Option GoErr) (l : List Msg) (i : Nat)
    (h : ∀ m ∈ l, poison dec m = true → m.ackResult = none) :
    B1.decodeLoop dec l i = (poisonAcks dec l i, .ok (retainedOf dec l i)) := by
  induction l generalizing i with
  | nil => rfl
  | cons m rest ih =>
      have hrest : ∀ m2 ∈ rest, poison dec m2 = true → m2.ackResult = none :=
        fun m2 hm2 => h m2 (List.mem_cons_of_mem _ hm2)
      rcases hdm : dec m.data with ⟨fr, derr⟩
      cases derr with
      | none =>
          simp [B1.decodeLoop, poisonAcks, retainedOf, poison, hdm, Except.map,
                ih (i + 1) hrest]
      | some de =>
          have hpois : poison dec m = true := by simp [poison, hdm]
          have hack := h m (List.mem_cons_self _ _) hpois
          simp [B1.decodeLoop, poisonAcks, retainedOf, poison, hdm, hack, Except.map,
                ih (i + 1) hrest]

/-- When the first poison message with a failing Ack sits after an all-acks-ok
run, the decode loop acks the preceding poison messages and that message,
then aborts with the pair of the decode and ack errors. -/
lemma decodeLoop_abort (dec : Bytes → T × Option GoErr) (pre : List Msg) (m : Msg)
    (post : List Msg) (i : Nat) (v : T) (de ae : GoErr)
    (hpre : ∀ m2 ∈ pre, poison dec m2 = true → m2.ackResult = none)
    (hdec : dec m.data = (v, some de)) (hack : m.ackResult = some ae) :
    B1.decodeLoop dec (pre ++ m :: post) i =
      (poisonAcks dec pre i ++ [Event.ack (i + pre.length)], .error (de, ae)) := by
  induction pre generalizing i with
  | nil =>
      simp [B1.decodeLoop, hdec, hack, poisonAcks]
  | cons m2 rest ih =>
      have hrest : ∀ m3 ∈ rest, poison dec m3 = true → m3.ackResult = none :=
        fun m3 hm3 => hpre m3 (List.mem_cons_of_mem _ hm3)
      rcases hdm : dec m2.data with ⟨fr2, derr2⟩
      have hidx : i + (rest.length + 1) = i + 1 + rest.length := by omega
      cases derr2 with
      | none =>
          simp [B1.decodeLoop, poisonAcks, poison, hdm, ih (i + 1) hrest, Except.map, hidx]
      | some de2 =>
          have hack2 := hpre m2 (List.mem_cons_self _ _) (by simp [poison, hdm])
          simp [B1.decodeLoop, poisonAcks, poison, hdm, hack2, ih (i + 1) hrest,
                Except.map, hidx]

/-- The bodies of the retained messages are the decoded bodies of the batch. -/
lemma retainedOf_map_body (dec : Bytes → T × Option GoErr) (l : List Msg) (i : Nat) :
    (retainedOf dec l i).map (·.body) = decodedBodies dec l := by
  induction l generalizing i with
  | nil => rfl
  | cons m rest ih =>
      rcases hdm : dec m.data with ⟨v, e⟩
      cases e <;> simp [retainedOf, decodedBodies, List.filterMap_cons, hdm, ih (i + 1)]

/-- Every event the decode loop emits for poison messages is an ack whose
index points at a poison message of the batch. -/
lemma mem_poisonAcks (dec : Bytes → T × Option GoErr) (l : List Msg) (i : Nat)
    (ev : Event T) (h : ev ∈ poisonAcks dec l i) :
    ∃ j, j < l.length ∧ ev = Event.ack (i + j) ∧ poison dec (l.getD j dMsg) = true := by
  induction l generalizing i with
  | nil => cases h
  | cons m rest ih =>
      by_cases hp : poison dec m = true
      · simp only [poisonAcks, hp, if_true] at h
        rcases List.mem_append.mp h with h1 | h2
        · rcases List.mem_singleton.mp h1 with rfl
          exact ⟨0, by simp, by simp, by simpa using hp⟩
        · rcases ih (i + 1) h2 with ⟨j, hj, hev, hpj⟩
          refine ⟨j + 1, by simpa using Nat.succ_lt_succ hj, ?_, by simpa using hpj⟩
          rw [hev]
          congr 1
          omega
      · simp only [poisonAcks, hp, if_false, Bool.false_eq_true, List.nil_append] at h
        rcases ih (i + 1) h with ⟨j, hj, hev, hpj⟩
        refine ⟨j + 1, by simpa using Nat.succ_lt_succ hj, ?_, by simpa using hpj⟩
        rw [hev]
        congr 1
        omega

/-- Conversely, every poison position of the batch gets its ack event. -/
lemma ack_mem_poisonAcks (dec : Bytes → T × Option GoErr) (l : List Msg) (i j : Nat)
    (hj : j < l.length) (hp : poison dec (l.getD j dMsg) = true) :
    Event.ack (i + j) ∈ poisonAcks dec l i := by
  induction l generalizing i j with
  | nil => exact absurd hj (Nat.not_lt_zero j)
  | cons m rest ih =>
      cases j with
      | zero =>
          have hm : poison dec m = true := by simpa using hp
          simp [poisonAcks, hm]
      | succ j =>
          have hmem := ih (i + 1) j (by simpa using Nat.lt_of_succ_lt_succ hj)
            (by simpa using hp)
          simp only [poisonAcks]
          refine List.mem_append.mpr (Or.inr ?_)
          have heq : i + (j + 1) = i + 1 + j := by omega
          rw [heq]
          exact hmem

/-- Every retained message sits at a non-poison position of the batch, carries
that position as its index, and its body is that message's decode result. -/
lemma mem_retainedOf (dec : Bytes → T × Option GoErr) (l : List Msg) (i : Nat)
    (r : Retained T) (h : r ∈ retainedOf dec l i) :
    ∃ j, j < l.length ∧ r.idx = i + j ∧ poison dec (l.getD j dMsg) = false ∧
      r.msg = l.getD j dMsg ∧ r.body = (dec (l.getD j dMsg).data).1 := by
  induction l generalizing i with
  | nil => cases h
  | cons m rest ih =>
      rcases hdm : dec m.data with ⟨v, e⟩
      cases e with
      | some e0 =>
          simp only [retainedOf, hdm, Option.isSome_some, if_true, List.nil_append] at h
          rcases ih (i + 1) h with ⟨j, hj, hidx, hpj, hmsg, hbody⟩
          exact ⟨j + 1, by simpa using Nat.succ_lt_succ hj, by omega,
                 by simpa using hpj, by simpa using hmsg, by simpa using hbody⟩
      | none =>
          simp only [retainedOf, hdm, Option.isSome_none, if_false, Bool.false_eq_true,
                     List.singleton_append] at h
          rcases List.mem_cons.mp h with rfl | h2
          · exact ⟨0, by simp, by simp, by simp [poison, hdm], by simp, by simp [hdm]⟩
          · rcases ih (i + 1) h2 with ⟨j, hj, hidx, hpj, hmsg, hbody⟩
            exact ⟨j + 1, by simpa using Nat.succ_lt_succ hj, by omega,
                   by simpa using hpj, by simpa using hmsg, by simpa using hbody⟩

/-- Retained indexes are bounded below by the starting index. -/
lemma retainedOf_idx_ge (dec : Bytes → T × Option GoErr) (l : List Msg) (i : Nat) :
    ∀ r ∈ retainedOf dec l i, i ≤ r.idx := by
  intro r h
  rcases mem_retainedOf dec l i r h with ⟨j, _, hidx, _⟩
  omega

/-- Retained indexes are strictly increasing in fetch order. -/
lemma retainedOf_pairwise (dec : Bytes → T × Option GoErr) (l : List Msg) (i : Nat) :
    (retainedOf dec l i).Pairwise (fun a b => a.idx < b.idx) := by
  induction l generalizing i with
  | nil => exact List.Pairwise.nil
  | cons m rest ih =>
      rcases hdm : dec m.data with ⟨v, e⟩
      cases e with
      | some e0 => simpa [retainedOf, hdm] using ih (i + 1)
      | none =>
          simp only [retainedOf, hdm, Option.isSome_none, if_false, Bool.false_eq_true,
                     List.singleton_append]
          refine List.Pairwise.cons ?_ (ih (i + 1))
          intro b hb
          have := retainedOf_idx_ge dec rest (i + 1) b hb
          simp only []
          omega

/-- Positions in the retained list are determined by their index. -/
lemma retainedOf_idx_inj (dec : Bytes → T × Option GoErr) (l : List Msg) (i : Nat)
    {k1 k2 : Nat} (h1 : k1 < (retainedOf dec l i).length)
    (h2 : k2 < (retainedOf dec l i).length)
    (heq : (retainedOf dec l i)[k1].idx = (retainedOf dec l i)[k2].idx) : k1 = k2 := by
  by_contra hne
  have hpw := List.pairwise_iff_getElem.mp (retainedOf_pairwise dec l i)
  rcases Nat.lt_or_ge k1 k2 with hlt | hge
  · have := hpw k1 k2 h1 h2 hlt
    omega
  · have hlt2 : k2 < k1 := by omega
    have := hpw k2 k1 h2 h1 hlt2
    omega

/-- The ack/nack loop in closed form: the concatenation of the per-pair event
blocks, and one collected error per pair. -/
lemma resolveLoop_eq (hasEH : Bool) (pairs : List (Retained T × Option GoErr)) :
    B1.resolveLoop hasEH pairs = (pairs.flatMap (resolveBlock hasEH), pairs.map opResult) := by
  induction pairs with
  | nil => rfl
  | cons p rest ih =>
      rcases p with ⟨r, o⟩
      cases o with
      | none => simp [B1.resolveLoop, resolveBlock, opResult, ih]
      | some e =>
          simp [B1.resolveLoop, resolveBlock, opResult, ih, List.append_assoc]

/-- Every event the decode loop emits is a positive acknowledgement. -/
lemma decodeLoop_events_ack (dec : Bytes → T × Option GoErr) (l : List Msg) (i : Nat) :
    ∀ ev ∈ (B1.decodeLoop dec l i).1, ∃ j, ev = Event.ack j := by
  induction l generalizing i with
  | nil => intro ev h; cases h
  | cons m rest ih =>
      intro ev h
      rcases hdm : dec m.data with ⟨v, e⟩
      rcases hdl : B1.decodeLoop dec rest (i + 1) with ⟨evs, r⟩
      cases e with
      | some de =>
          cases hma : m.ackResult with
          | some ae =>
              simp only [B1.decodeLoop, hdm, hma] at h
              rcases List.mem_singleton.mp h with rfl
              exact ⟨i, rfl⟩
          | none =>
              simp only [B1.decodeLoop, hdm, hma, hdl] at h
              rcases List.mem_cons.mp h with rfl | h2
              · exact ⟨i, rfl⟩
              · exact ih (i + 1) ev (by rw [hdl]; exact h2)
      | none =>
          simp only [B1.decodeLoop, hdm, hdl] at h
          exact ih (i + 1) ev (by rw [hdl]; exact h)

/-- The errors.Join of the collected ack/nack errors is nil exactly when every
collected error is nil. -/
lemma joinErrs_eq_none_iff (l : List (Option GoErr)) :
    joinErrs l = none ↔ ∀ x ∈ l, x = none := by
  unfold joinErrs
  rcases hfm : l.filterMap id with _ | ⟨e, es⟩
  · simp only [hfm, List.isEmpty_nil, if_true]
    constructor
    · intro _ x hx
      by_contra hne
      rcases Option.ne_none_iff_exists'.mp hne with ⟨y, hy⟩
      have hmem : y ∈ l.filterMap id := List.mem_filterMap.mpr ⟨x, hx, by simp [hy]⟩
      rw [hfm] at hmem
      cases hmem
    · intro _
      trivial
  · simp only [hfm, List.isEmpty_cons, if_false, Bool.false_eq_true]
    constructor
    · intro h
      cases h
    · intro hall
      have hmem : e ∈ l.filterMap id := by
        rw [hfm]
        exact List.mem_cons_self _ _
      rcases List.mem_filterMap.mp hmem with ⟨x, hx, hex⟩
      rw [hall x hx] at hex
      cases hex

/-- The image of a list member under flatMap occurs contiguously in the
flattened list. -/
lemma flatMap_infix {α β : Type _} (f : α → List β) (l : List α) (a : α) (h : a ∈ l) :
    f a <:+: l.flatMap f := by
  induction l with
  | nil => cases h
  | cons x xs ih =>
      rcases List.mem_cons.mp h with rfl | h2
      · exact ⟨[], xs.flatMap f, by simp⟩
      · rcases ih h2 with ⟨s, t, hst⟩
        refine ⟨f x ++ s, t, ?_⟩
        rw [List.flatMap_cons, ← hst]
        simp [List.append_assoc]

/-- The three completed shapes of batch.go's Process when every poison ack
succeeds: empty decoded batch (success, only poison acks), outcome-count
mismatch (contract error, no resolve events), and the resolved batch. -/
lemma process_shape (bp : BatchProcessor T) (batch : List Msg)
    (hf : bp.fetchResult = .ok batch)
    (hacks : ∀ m ∈ batch, poison bp.dec m = true → m.ackResult = none) :
    (retainedOf bp.dec batch 0 = [] ∧
       B1.Process bp = (none, poisonAcks bp.dec batch 0)) ∨
    (retainedOf bp.dec batch 0 ≠ [] ∧
       (bp.processor (decodedBodies bp.dec batch)).length ≠
         (retainedOf bp.dec batch 0).length ∧
       B1.Process bp = (some (.handlerContract (retainedOf bp.dec batch 0).length
             (bp.processor (decodedBodies bp.dec batch)).length),
           poisonAcks bp.dec batch 0 ++ [Event.handlerCall (decodedBodies bp.dec batch)])) ∨
    (retainedOf bp.dec batch 0 ≠ [] ∧
       (bp.processor (decodedBodies bp.dec batch)).length =
         (retainedOf bp.dec batch 0).length ∧
       B1.Process bp = (joinErrs (((retainedOf bp.dec batch 0).zip
             (bp.processor (decodedBodies bp.dec batch))).map opResult),
           poisonAcks bp.dec batch 0 ++ [Event.handlerCall (decodedBodies bp.dec batch)]
             ++ ((retainedOf bp.dec batch 0).zip
                   (bp.processor (decodedBodies bp.dec batch))).flatMap
                 (resolveBlock bp.hasErrorHandler))) := by
  have hdl := decodeLoop_ok bp.dec batch 0 hacks
  have hbodies := retainedOf_map_body bp.dec batch 0
  by_cases hemp : retainedOf bp.dec batch 0 = []
  · left
    refine ⟨hemp, ?_⟩
    simp [B1.Process, hf, hdl, hemp]
  · by_cases hlen : (bp.processor (decodedBodies bp.dec batch)).length =
        (retainedOf bp.dec batch 0).length
    · right; right
      refine ⟨hemp, hlen, ?_⟩
      simp [B1.Process, hf, hdl, hemp, hbodies, hlen, resolveLoop_eq]
    · right; left
      refine ⟨hemp, hlen, ?_⟩
      simp [B1.Process, hf, hdl, hemp, hbodies, hlen]

/-- The handler-invocation event never occurs among ack/nack resolution
events. -/
lemma handlerCall_not_mem_resolveBlock (hasEH : Bool) (p : Retained T × Option GoErr)
    (ms : List T) : Event.handlerCall ms ∉ resolveBlock hasEH p := by
  intro h
  rcases p with ⟨r, o⟩
  cases o with
  | none => simp [resolveBlock] at h
  | some e => cases hasEH <;> simp [resolveBlock] at h

/-- An ack among a pair's resolution events forces a success outcome and that
pair's index. -/
lemma ack_mem_resolveBlock (hasEH : Bool) (p : Retained T × Option GoErr) (x : Nat)
    (h : Event.ack x ∈ resolveBlock hasEH p) : p.2 = none ∧ x = p.1.idx := by
  rcases p with ⟨r, o⟩
  cases o with
  | none =>
      simp only [resolveBlock, List.mem_singleton, Event.ack.injEq] at h
      exact ⟨rfl, h⟩
  | some e => cases hasEH <;> simp [resolveBlock] at h

/-- A nak among a pair's resolution events forces a failure outcome and that
pair's index. -/
lemma nak_mem_resolveBlock (hasEH : Bool) (p : Retained T × Option GoErr) (x : Nat)
    (h : Event.nak x ∈ resolveBlock hasEH p) : p.2.isSome = true ∧ x = p.1.idx := by
  rcases p with ⟨r, o⟩
  cases o with
  | none => simp [resolveBlock] at h
  | some e =>
      cases hasEH <;> simp [resolveBlock] at h <;> exact ⟨rfl, h⟩

/-- A success pair's resolution events contain its ack. -/
lemma ack_mem_resolveBlock_of_none (hasEH : Bool) (p : Retained T × Option GoErr)
    (h : p.2 = none) : Event.ack p.1.idx ∈ resolveBlock hasEH p := by
  rcases p with ⟨r, o⟩
  cases h
  simp [resolveBlock]

/-- A failure pair's resolution events contain its nak. -/
lemma nak_mem_resolveBlock_of_some (hasEH : Bool) (p : Retained T × Option GoErr)
    (e : GoErr) (h : p.2 = some e) : Event.nak p.1.idx ∈ resolveBlock hasEH p := by
  rcases p with ⟨r, o⟩
  cases h
  cases hasEH <;> simp [resolveBlock]

/-- If the decode loop completed, every poison message's Ack succeeded. -/
lemma decodeLoop_ok_inv (dec : Bytes → T × Option GoErr) (l : List Msg) (i : Nat)
    (retained : List (Retained T))
    (h : (B1.decodeLoop dec l i).2 = .ok retained) :
    ∀ m ∈ l, poison dec m = true → m.ackResult = none := by
  induction l generalizing i retained with
  | nil =>
      intro m hm
      cases hm
  | cons m rest ih =>
      intro m2 hm2 hp
      rcases hdm : dec m.data with ⟨v, e⟩
      rcases hdl2 : B1.decodeLoop dec rest (i + 1) with ⟨evs, r⟩
      cases e with
      | some de =>
          cases hma : m.ackResult with
          | some ae => simp [B1.decodeLoop, hdm, hma] at h
          | none =>
              rcases List.mem_cons.mp hm2 with rfl | h2
              · exact hma
              · simp only [B1.decodeLoop, hdm, hma, hdl2] at h
                exact ih (i + 1) retained (by rw [hdl2]; exact h) m2 h2 hp
      | none =>
          rcases List.mem_cons.mp hm2 with rfl | h2
          · rw [poison, hdm] at hp
            simp at hp
          · simp only [B1.decodeLoop, hdm, hdl2] at h
            cases r with
            | error x => simp [Except.map] at h
            | ok retained2 =>
                exact ih (i + 1) retained2 (by rw [hdl2]) m2 h2 hp

/-! ## C2: poison messages are acked and excluded; a failing poison ack aborts -/

/-- C2: with fetch delivering this batch, (a) when every poison message's Ack
succeeds, each poison message is positively acknowledged and every handler
invocation receives exactly the decoded bodies of the non-poison messages
(poison excluded); and (b) when a poison message with a failing Ack follows an
all-acks-succeeding run, Process returns exactly the combination of that
message's decode error and ack error, the handler is never invoked, and no
message after the failing one is acknowledged, negatively acknowledged, or
otherwise touched. -/
theorem process_poison_handling (bp : BatchProcessor T) (batch : List Msg)
    (hf : bp.fetchResult = .ok batch) :
    ((∀ m ∈ batch, poison bp.dec m = true → m.ackResult = none) →
       (∀ j, j < batch.length → poison bp.dec (batch.getD j dMsg) = true →
           Event.ack j ∈ (B1.Process bp).2) ∧
       (∀ ms, Event.handlerCall ms ∈ (B1.Process bp).2 →
           ms = decodedBodies bp.dec batch)) ∧
    (∀ pre m post v de ae, batch = pre ++ m :: post →
       (∀ m2 ∈ pre, poison bp.dec m2 = true → m2.ackResult = none) →
       bp.dec m.data = (v, some de) → m.ackResult = some ae →
       (B1.Process bp).1 = some (.unmarshalAck de ae) ∧
       (∀ ms, Event.handlerCall ms ∉ (B1.Process bp).2) ∧
       (∀ j, pre.length < j → Event.ack j ∉ (B1.Process bp).2 ∧
             Event.nak j ∉ (B1.Process bp).2)) := by
  constructor
  · intro hacks
    have hackj : ∀ j, j < batch.length → poison bp.dec (batch.getD j dMsg) = true →
        Event.ack j ∈ poisonAcks bp.dec batch 0 := by
      intro j hj hp
      have := ack_mem_poisonAcks bp.dec batch 0 j hj hp
      rwa [Nat.zero_add] at this
    rcases process_shape bp batch hf hacks with ⟨_, hproc⟩ | ⟨_, _, hproc⟩ | ⟨_, _, hproc⟩
    · rw [hproc]
      refine ⟨hackj, ?_⟩
      intro ms hmem
      rcases mem_poisonAcks bp.dec batch 0 _ hmem with ⟨j, _, hev, _⟩
      simp at hev
    · rw [hproc]
      refine ⟨fun j hj hp => List.mem_append_left _ (hackj j hj hp), ?_⟩
      intro ms hmem
      rcases List.mem_append.mp hmem with h1 | h2
      · rcases mem_poisonAcks bp.dec batch 0 _ h1 with ⟨j, _, hev, _⟩
        simp at hev
      · rcases List.mem_singleton.mp h2 with hev
        exact (Event.handlerCall.inj hev)
    · rw [hproc]
      refine ⟨fun j hj hp =>
        List.mem_append_left _ (List.mem_append_left _ (hackj j hj hp)), ?_⟩
      intro ms hmem
      rcases List.mem_append.mp hmem with h12 | h3
      · rcases List.mem_append.mp h12 with h1 | h2
        · rcases mem_poisonAcks bp.dec batch 0 _ h1 with ⟨j, _, hev, _⟩
          simp at hev
        · rcases List.mem_singleton.mp h2 with hev
          exact (Event.handlerCall.inj hev)
      · rcases List.mem_flatMap.mp h3 with ⟨p, _, hblk⟩
        exact absurd hblk (handlerCall_not_mem_resolveBlock _ p ms)
  · intro pre m post v de ae hb hpre hdec hack
    subst hb
    have habort := decodeLoop_abort bp.dec pre m post 0 v de ae hpre hdec hack
    have hproc : B1.Process bp =
        (some (.unmarshalAck de ae),
         poisonAcks bp.dec pre 0 ++ [Event.ack (0 + pre.length)]) := by
      simp [B1.Process, hf, habort]
    rw [hproc]
    refine ⟨rfl, ?_, ?_⟩
    · intro ms hmem
      rcases List.mem_append.mp hmem with h1 | h2
      · rcases mem_poisonAcks bp.dec pre 0 _ h1 with ⟨j, _, hev, _⟩
        simp at hev
      · rcases List.mem_singleton.mp h2 with hev
        simp at hev
    · intro j hj
      constructor
      · intro hmem
        rcases List.mem_append.mp hmem with h1 | h2
        · rcases mem_poisonAcks bp.dec pre 0 _ h1 with ⟨j2, hj2, hev, _⟩
          have : j = 0 + j2 := Event.ack.inj hev
          omega
        · have : j = 0 + pre.length := Event.ack.inj (List.mem_singleton.mp h2)
          omega
      · intro hmem
        rcases List.mem_append.mp hmem with h1 | h2
        · rcases mem_poisonAcks bp.dec pre 0 _ h1 with ⟨j2, _, hev, _⟩
          simp at hev
        · have := List.mem_singleton.mp h2
          simp at this

/-- Witness for C2 at a concrete batch whose second message is poison with a
failing Ack: Process aborts with the combined error, and the message after
the poison one is untouched. -/
theorem process_poison_handling_w :
    (B1.Process bpB).1 =
      some (.unmarshalAck (GoErr.jsonErr "invalid") (GoErr.other "ackfail")) ∧
    Event.ack 2 ∉ (B1.Process bpB).2 := by
  have h := process_poison_handling bpB [mGood, mPoisonBadAck, mGood] rfl
  have hb := h.2 [mGood] mPoisonBadAck [mGood] 1 (GoErr.jsonErr "invalid")
    (GoErr.other "ackfail") rfl (by decide) (by decide) (by decide)
  exact ⟨hb.1, (hb.2.2 2 (by decide)).1⟩

/-! ## C3: the handler contract -/

/-- C3: the handler is invoked at most once per Process call; any invocation
receives exactly the successfully decoded messages in fetch order; and when
the outcome count differs from the decoded-message count, Process returns the
handler-contract error and no retained (decoded) message receives a positive
or negative acknowledgement. -/
theorem process_handler_contract (bp : BatchProcessor T) (batch : List Msg)
    (hf : bp.fetchResult = .ok batch) :
    ((B1.Process bp).2.countP (fun ev => match ev with
        | Event.handlerCall _ => true
        | _ => false) ≤ 1) ∧
    (∀ ms, Event.handlerCall ms ∈ (B1.Process bp).2 → ms = decodedBodies bp.dec batch) ∧
    ((∀ m ∈ batch, poison bp.dec m = true → m.ackResult = none) →
     retainedOf bp.dec batch 0 ≠ [] →
     (bp.processor (decodedBodies bp.dec batch)).length ≠
       (retainedOf bp.dec batch 0).length →
       (B1.Process bp).1 = some (.handlerContract (retainedOf bp.dec batch 0).length
           (bp.processor (decodedBodies bp.dec batch)).length) ∧
       ∀ r ∈ retainedOf bp.dec batch 0,
         Event.ack r.idx ∉ (B1.Process bp).2 ∧ Event.nak r.idx ∉ (B1.Process bp).2) := by
  have hcount0 : ∀ l : List (Event T), (∀ ev ∈ l, ∃ j, ev = Event.ack j) →
      l.countP (fun ev => match ev with
        | Event.handlerCall _ => true
        | _ => false) = 0 := by
    intro l hl
    apply List.countP_eq_zero.mpr
    intro ev hev
    rcases hl ev hev with ⟨j, rfl⟩
    simp
  have hflat0 : ∀ (pairs : List (Retained T × Option GoErr)),
      (pairs.flatMap (resolveBlock bp.hasErrorHandler)).countP (fun ev => match ev with
        | Event.handlerCall _ => true
        | _ => false) = 0 := by
    intro pairs
    apply List.countP_eq_zero.mpr
    intro ev hev
    rcases List.mem_flatMap.mp hev with ⟨p, _, hblk⟩
    rcases p with ⟨r, o⟩
    cases o with
    | none =>
        simp only [resolveBlock, List.mem_singleton] at hblk
        simp [hblk]
    | some e =>
        cases hEH : bp.hasErrorHandler <;>
          simp only [resolveBlock, hEH] at hblk <;>
          simp at hblk <;>
          rcases hblk with rfl | rfl <;> simp
  rcases hdlf : B1.decodeLoop bp.dec batch 0 with ⟨devs, dres⟩
  have hdevs : ∀ ev ∈ devs, ∃ j, ev = Event.ack j := by
    intro ev hev
    exact decodeLoop_events_ack bp.dec batch 0 ev (by rw [hdlf]; exact hev)
  cases dres with
  | error pair =>
      rcases pair with ⟨de, ae⟩
      have hproc : B1.Process bp = (some (.unmarshalAck de ae), devs) := by
        simp [B1.Process, hf, hdlf]
      rw [hproc]
      refine ⟨by rw [hcount0 devs hdevs]; exact Nat.zero_le 1, ?_, ?_⟩
      · intro ms hmem
        rcases hdevs _ hmem with ⟨j, hev⟩
        simp at hev
      · intro hacks
        exfalso
        have hok := decodeLoop_ok bp.dec batch 0 hacks
        rw [hdlf] at hok
        simp at hok
  | ok retained =>
      have hacks := decodeLoop_ok_inv bp.dec batch 0 retained (by rw [hdlf])
      have hpa : devs = poisonAcks bp.dec batch 0 := by
        have := decodeLoop_ok bp.dec batch 0 hacks
        rw [hdlf] at this
        exact congrArg Prod.fst this
      rcases process_shape bp batch hf hacks with ⟨hz, hproc⟩ | ⟨hne, hlen, hproc⟩ |
        ⟨hne, hlen, hproc⟩
      · rw [hproc]
        have hpack : ∀ ev ∈ poisonAcks bp.dec batch 0, ∃ j, ev = Event.ack j := by
          intro ev hev
          rcases mem_poisonAcks bp.dec batch 0 ev hev with ⟨j, _, hev2, _⟩
          exact ⟨0 + j, hev2⟩
        refine ⟨by rw [hcount0 _ hpack]; exact Nat.zero_le 1, ?_, ?_⟩
        · intro ms hmem
          rcases hpack _ hmem with ⟨j, hev⟩
          simp at hev
        · intro _ hne _
          exact absurd hz hne
      · rw [hproc]
        have hpack : ∀ ev ∈ poisonAcks bp.dec batch 0, ∃ j, ev = Event.ack j := by
          intro ev hev
          rcases mem_poisonAcks bp.dec batch 0 ev hev with ⟨j, _, hev2, _⟩
          exact ⟨0 + j, hev2⟩
        refine ⟨?_, ?_, ?_⟩
        · rw [List.countP_append, hcount0 _ hpack]
          simp
        · intro ms hmem
          rcases List.mem_append.mp hmem with h1 | h2
          · rcases hpack _ h1 with ⟨j, hev⟩
            simp at hev
          · exact Event.handlerCall.inj (List.mem_singleton.mp h2)
        · intro _ _ _
          refine ⟨rfl, ?_⟩
          intro r hr
          rcases mem_retainedOf bp.dec batch 0 r hr with ⟨j, hj, hidx, hpj, _, _⟩
          constructor
          · intro hmem
            rcases List.mem_append.mp hmem with h1 | h2
            · rcases mem_poisonAcks bp.dec batch 0 _ h1 with ⟨j2, hj2, hev, hpj2⟩
              have : r.idx = 0 + j2 := Event.ack.inj hev
              have : j = j2 := by omega
              subst this
              rw [hpj] at hpj2
              cases hpj2
            · have := List.mem_singleton.mp h2
              simp at this
          · intro hmem
            rcases List.mem_append.mp hmem with h1 | h2
            · rcases mem_poisonAcks bp.dec batch 0 _ h1 with ⟨j2, _, hev, _⟩
              simp at hev
            · have := List.mem_singleton.mp h2
              simp at this
      · rw [hproc]
        have hpack : ∀ ev ∈ poisonAcks bp.dec batch 0, ∃ j, ev = Event.ack j := by
          intro ev hev
          rcases mem_poisonAcks bp.dec batch 0 ev hev with ⟨j, _, hev2, _⟩
          exact ⟨0 + j, hev2⟩
        refine ⟨?_, ?_, ?_⟩
        · rw [List.countP_append, List.countP_append, hcount0 _ hpack, hflat0]
          simp
        · intro ms hmem
          rcases List.mem_append.mp hmem with h12 | h3
          · rcases List.mem_append.mp h12 with h1 | h2
            · rcases hpack _ h1 with ⟨j, hev⟩
              simp at hev
            · exact Event.handlerCall.inj (List.mem_singleton.mp h2)
          · rcases List.mem_flatMap.mp h3 with ⟨p, _, hblk⟩
            exact absurd hblk (handlerCall_not_mem_resolveBlock _ p ms)
        · intro _ _ hlen2
          exact absurd hlen hlen2

/-- Witness for C3 at a concrete batch and a handler returning the wrong
number of outcomes: Process reports the contract error and the decoded
message is left unacknowledged. -/
theorem process_handler_contract_w :
    (B1.Process bpC).1 = some (.handlerContract 1 0) ∧
    Event.ack 1 ∉ (B1.Process bpC).2 ∧ Event.nak 1 ∉ (B1.Process bpC).2 := by
  have h := process_handler_contract bpC [mPoison, mGood] rfl
  have h3 := h.2.2 (by decide) (by decide) (by decide)
  have h4 := h3.2 ⟨7, 1, mGood⟩ (by decide)
  exact ⟨h3.1, h4.1, h4.2⟩

/-! ## C4: per-message resolution and error aggregation -/

/-- C4: with a correct-length outcome slice, the k-th decoded message is
positively acknowledged exactly when its outcome is success and negatively
acknowledged exactly when it is failure, with the optional ErrorHandler hook
invoked immediately before the nack; every ack/nack is attempted (each
message's event is present whatever the other results), and Process returns
the errors.Join aggregation of all per-message ack/nack results, which is nil
exactly when all of them are nil. -/
theorem process_resolve (bp : BatchProcessor T) (batch : List Msg)
    (hf : bp.fetchResult = .ok batch)
    (hacks : ∀ m ∈ batch, poison bp.dec m = true → m.ackResult = none)
    (hne : retainedOf bp.dec batch 0 ≠ [])
    (hlen : (bp.processor (decodedBodies bp.dec batch)).length =
            (retainedOf bp.dec batch 0).length) :
    (∀ (k : Nat) (r : Retained T) (o : Option GoErr),
        (retainedOf bp.dec batch 0)[k]? = some r →
        (bp.processor (decodedBodies bp.dec batch))[k]? = some o →
        ((o = none → Event.ack r.idx ∈ (B1.Process bp).2 ∧
            Event.nak r.idx ∉ (B1.Process bp).2) ∧
         (∀ e, o = some e → Event.nak r.idx ∈ (B1.Process bp).2 ∧
            Event.ack r.idx ∉ (B1.Process bp).2 ∧
            (bp.hasErrorHandler = true →
              [Event.errorHandler r.body e, Event.nak r.idx] <:+: (B1.Process bp).2)))) ∧
    (B1.Process bp).1 = joinErrs (((retainedOf bp.dec batch 0).zip
        (bp.processor (decodedBodies bp.dec batch))).map opResult) ∧
    ((B1.Process bp).1 = none ↔
      ∀ p ∈ (retainedOf bp.dec batch 0).zip (bp.processor (decodedBodies bp.dec batch)),
        opResult p = none) := by
  rcases process_shape bp batch hf hacks with ⟨hz, _⟩ | ⟨_, hlen2, _⟩ | ⟨_, _, hproc⟩
  · exact absurd hz hne
  · exact absurd hlen hlen2
  · have hpairs_len : ((retainedOf bp.dec batch 0).zip
        (bp.processor (decodedBodies bp.dec batch))).length =
          (retainedOf bp.dec batch 0).length := by
      rw [List.length_zip, hlen, Nat.min_self]
    refine ⟨?_, ?_, ?_⟩
    · intro k r o hr ho
      have hkR : k < (retainedOf bp.dec batch 0).length := by
        have := List.getElem?_eq_some.mp hr
        exact this.1
      have hRk : (retainedOf bp.dec batch 0)[k] = r := (List.getElem?_eq_some.mp hr).2
      have hkO : k < (bp.processor (decodedBodies bp.dec batch)).length := by
        have := List.getElem?_eq_some.mp ho
        exact this.1
      have hOk : (bp.processor (decodedBodies bp.dec batch))[k] = o :=
        (List.getElem?_eq_some.mp ho).2
      have hkP : k < ((retainedOf bp.dec batch 0).zip
          (bp.processor (decodedBodies bp.dec batch))).length := by
        rw [hpairs_len]
        exact hkR
      have hPk : ((retainedOf bp.dec batch 0).zip
          (bp.processor (decodedBodies bp.dec batch)))[k] = (r, o) := by
        rw [List.getElem_zip, hRk, hOk]
      have hPmem : (r, o) ∈ (retainedOf bp.dec batch 0).zip
          (bp.processor (decodedBodies bp.dec batch)) := by
        rw [← hPk]
        exact List.getElem_mem hkP
      have hrmem : r ∈ retainedOf bp.dec batch 0 := by
        rw [← hRk]
        exact List.getElem_mem hkR
      rcases mem_retainedOf bp.dec batch 0 r hrmem with ⟨j, hj, hidx, hpj, _, _⟩
      -- an ack of a non-poison index never comes from the decode phase
      have hack_not_pa : Event.ack r.idx ∉ poisonAcks bp.dec batch 0 := by
        intro h1
        rcases mem_poisonAcks bp.dec batch 0 _ h1 with ⟨j2, hj2, hev, hpj2⟩
        have : r.idx = 0 + j2 := Event.ack.inj hev
        have : j = j2 := by omega
        subst this
        rw [hpj] at hpj2
        cases hpj2
      have hnak_not_pa : Event.nak r.idx ∉ poisonAcks bp.dec batch 0 := by
        intro h1
        rcases mem_poisonAcks bp.dec batch 0 _ h1 with ⟨j2, _, hev, _⟩
        simp at hev
      -- identify any resolve-phase pair sharing this index with position k
      have hsame : ∀ p2 ∈ (retainedOf bp.dec batch 0).zip
          (bp.processor (decodedBodies bp.dec batch)),
          p2.1.idx = r.idx → p2.2 = o := by
        intro p2 hp2 hpidx
        rcases List.mem_iff_getElem.mp hp2 with ⟨k2, hk2, hPk2⟩
        have hk2R : k2 < (retainedOf bp.dec batch 0).length := by
          rw [hpairs_len] at hk2
          exact hk2
        have hk2O : k2 < (bp.processor (decodedBodies bp.dec batch)).length := by
          rw [hlen]
          exact hk2R
        have hz2 : ((retainedOf bp.dec batch 0).zip
            (bp.processor (decodedBodies bp.dec batch)))[k2] =
              ((retainedOf bp.dec batch 0)[k2],
               (bp.processor (decodedBodies bp.dec batch))[k2]) :=
          List.getElem_zip
        rw [hz2] at hPk2
        have hidx2 : (retainedOf bp.dec batch 0)[k2].idx = (retainedOf bp.dec batch 0)[k].idx := by
          rw [hRk]
          rw [← hPk2]at hpidx
          exact hpidx
        have hkk : k2 = k := retainedOf_idx_inj bp.dec batch 0 hk2R hkR hidx2
        subst hkk
        rw [← hPk2, hOk]
      constructor
      · intro ho2
        subst ho2
        constructor
        · -- the ack is present
          rw [hproc]
          refine List.mem_append_right _ ?_
          refine List.mem_flatMap.mpr ⟨(r, none), hPmem, ?_⟩
          exact ack_mem_resolveBlock_of_none _ _ rfl
        · -- no nak for this message anywhere
          rw [hproc]
          intro hmem
          rcases List.mem_append.mp hmem with h12 | h3
          · rcases List.mem_append.mp h12 with h1 | h2
            · exact hnak_not_pa h1
            · have := List.mem_singleton.mp h2
              simp at this
          · rcases List.mem_flatMap.mp h3 with ⟨p2, hp2, hblk⟩
            rcases nak_mem_resolveBlock _ p2 _ hblk with ⟨hsome, hxi⟩
            have := hsame p2 hp2 hxi.symm
            rw [this] at hsome
            cases hsome
      · intro e ho2
        subst ho2
        refine ⟨?_, ?_, ?_⟩
        · rw [hproc]
          refine List.mem_append_right _ ?_
          refine List.mem_flatMap.mpr ⟨(r, some e), hPmem, ?_⟩
          exact nak_mem_resolveBlock_of_some _ _ e rfl
        · rw [hproc]
          intro hmem
          rcases List.mem_append.mp hmem with h12 | h3
          · rcases List.mem_append.mp h12 with h1 | h2
            · exact hack_not_pa h1
            · have := List.mem_singleton.mp h2
              simp at this
          · rcases List.mem_flatMap.mp h3 with ⟨p2, hp2, hblk⟩
            rcases ack_mem_resolveBlock _ p2 _ hblk with ⟨hnone, hxi⟩
            have := hsame p2 hp2 hxi.symm
            rw [this] at hnone
            cases hnone
        · intro hEH
          rw [hproc]
          have hblock : resolveBlock bp.hasErrorHandler (r, some e) =
              [Event.errorHandler r.body e, Event.nak r.idx] := by
            rw [hEH]
            simp [resolveBlock]
          have hinf : resolveBlock bp.hasErrorHandler (r, some e) <:+:
              ((retainedOf bp.dec batch 0).zip
                (bp.processor (decodedBodies bp.dec batch))).flatMap
                  (resolveBlock bp.hasErrorHandler) :=
            flatMap_infix _ _ _ hPmem
          rw [hblock] at hinf
          exact hinf.trans (List.suffix_append _ _).isInfix
    · rw [hproc]
    · rw [hproc]
      simp only []
      rw [joinErrs_eq_none_iff]
      constructor
      · intro h p hp
        exact h (opResult p) (List.mem_map_of_mem _ hp)
      · intro h x hx
        rcases List.mem_map.mp hx with ⟨p, hp, rfl⟩
        exact h p hp

/-- Witness for C4 at a concrete two-message batch whose second outcome is a
failure with a failing Nak: the nak is issued and the aggregate error is
exactly the Join of the per-message results. -/
theorem process_resolve_w :
    Event.nak 1 ∈ (B1.Process bpD).2 ∧
    (B1.Process bpD).1 = some (.ackNakJoined [GoErr.other "nakfail"]) := by
  have h := process_resolve bpD [mGood, mGoodNakFail] rfl (by decide) (by decide) (by decide)
  have hk := h.1 1 ⟨9, 1, mGoodNakFail⟩ (some (GoErr.other "boom")) (by decide) (by decide)
  refine ⟨(hk.2 (GoErr.other "boom") rfl).1, ?_⟩
  rw [h.2.1]
  decide

/-! ## C5: an empty decoded batch succeeds without dispatch -/

/-- C5: when zero messages remain after the decode step (in particular when
the fetch delivered none), Process returns success and never invokes the
handler. -/
theorem process_empty_noop (bp : BatchProcessor T) (batch : List Msg)
    (hf : bp.fetchResult = .ok batch)
    (hacks : ∀ m ∈ batch, poison bp.dec m = true → m.ackResult = none)
    (hz : retainedOf bp.dec batch 0 = []) :
    (B1.Process bp).1 = none ∧
    ∀ ms, Event.handlerCall ms ∉ (B1.Process bp).2 := by
  rcases process_shape bp batch hf hacks with ⟨_, hproc⟩ | ⟨hne, _⟩ | ⟨hne, _⟩
  · rw [hproc]
    refine ⟨rfl, ?_⟩
    intro ms hmem
    rcases mem_poisonAcks bp.dec batch 0 _ hmem with ⟨j, _, hev, _⟩
    simp at hev
  · exact absurd hz hne
  · exact absurd hz hne

/-- Witness for C5 at a concrete all-poison batch. -/
theorem process_empty_noop_w :
    (B1.Process bpE).1 = none ∧
    Event.handlerCall ([] : List Nat) ∉ (B1.Process bpE).2 := by
  have h := process_empty_noop bpE [mPoison, mPoison] rfl (by decide) (by decide)
  exact ⟨h.1, h.2 []⟩

/-! ## C10: the plain and logged Process implementations agree -/

/-- The two decode loops are the same function (the logged variant logs
nothing inside the loop). -/
lemma decodeLoop_logged_eq (dec : Bytes → T × Option GoErr) (l : List Msg) (i : Nat) :
    B2.decodeLoop dec l i = B1.decodeLoop dec l i := by
  induction l generalizing i with
  | nil => rfl
  | cons m rest ih =>
      rcases hdm : dec m.data with ⟨v, e⟩
      cases e with
      | some de =>
          cases hma : m.ackResult <;>
            simp [B1.decodeLoop, B2.decodeLoop, hdm, hma, ih (i + 1)]
      | none => simp [B1.decodeLoop, B2.decodeLoop, hdm, ih (i + 1)]

/-- Log recognition on each event constructor. -/
lemma isLogEvent_ack (i : Nat) : isLogEvent (Event.ack i : Event T) = false := rfl

/-- Log recognition on each event constructor. -/
lemma isLogEvent_nak (i : Nat) : isLogEvent (Event.nak i : Event T) = false := rfl

/-- Log recognition on each event constructor. -/
lemma isLogEvent_handlerCall (ms : List T) :
    isLogEvent (Event.handlerCall ms) = false := rfl

/-- Log recognition on each event constructor. -/
lemma isLogEvent_errorHandler (m : T) (e : GoErr) :
    isLogEvent (Event.errorHandler m e) = false := rfl

/-- Log recognition on each event constructor. -/
lemma isLogEvent_log (s : String) : isLogEvent (Event.log s : Event T) = true := rfl

/-- The logged ack/nack loop differs from the plain one only by its warning
log lines; its collected errors are identical. -/
lemma resolveLoop_logged (hasEH : Bool) (pairs : List (Retained T × Option GoErr)) :
    (B2.resolveLoop hasEH pairs).1.filter (fun ev => !isLogEvent ev) =
      (B1.resolveLoop hasEH pairs).1 ∧
    (B2.resolveLoop hasEH pairs).2.1 = (B1.resolveLoop hasEH pairs).2 := by
  induction pairs with
  | nil => exact ⟨rfl, rfl⟩
  | cons p rest ih =>
      rcases p with ⟨r, o⟩
      rcases h2 : B2.resolveLoop hasEH rest with ⟨evs2, rest2⟩
      rcases rest2 with ⟨aerrs2, n⟩
      rcases h1 : B1.resolveLoop hasEH rest with ⟨evs1, aerrs1⟩
      rw [h2, h1] at ih
      have ih1 : evs2.filter (fun ev => !isLogEvent ev) = evs1 := ih.1
      have ih2 : aerrs2 = aerrs1 := ih.2
      cases o with
      | none =>
          constructor <;>
            simp [B1.resolveLoop, B2.resolveLoop, h2, h1, isLogEvent_ack, ih1, ih2]
      | some e =>
          cases hasEH <;> constructor <;>
            simp [B1.resolveLoop, B2.resolveLoop, h2, h1, isLogEvent_log, isLogEvent_nak,
                  isLogEvent_errorHandler, ih1, ih2]

/-- C10: for every fetch outcome, codec, processor and hook configuration, the
logged Process returns the same error as batch.go's Process, and its event
trace with the log lines removed is exactly batch.go's trace: the same
decode, exclusion, handler, hook, ack and nack decisions in the same order. -/
theorem process_logged_equiv (bp : BatchProcessor T) :
    (B2.Process bp).1 = (B1.Process bp).1 ∧
    (B2.Process bp).2.filter (fun ev => !isLogEvent ev) = (B1.Process bp).2 := by
  rcases hf : bp.fetchResult with e | batch
  · constructor <;> simp [B1.Process, B2.Process, hf, isLogEvent_log]
  · rcases hdl : B1.decodeLoop bp.dec batch 0 with ⟨devs, dres⟩
    have hdl2 : B2.decodeLoop bp.dec batch 0 = (devs, dres) := by
      rw [decodeLoop_logged_eq, hdl]
    have hdevs : devs.filter (fun ev => !isLogEvent ev) = devs := by
      apply List.filter_eq_self.mpr
      intro ev hmem
      rcases decodeLoop_events_ack bp.dec batch 0 ev (by rw [hdl]; exact hmem) with ⟨j, rfl⟩
      simp [isLogEvent_ack]
    cases dres with
    | error pair =>
        rcases pair with ⟨de, ae⟩
        constructor <;>
          simp [B1.Process, B2.Process, hf, hdl, hdl2, isLogEvent_log, hdevs,
                List.filter_append]
    | ok retained =>
        by_cases hemp : retained.isEmpty
        · constructor <;>
            simp [B1.Process, B2.Process, hf, hdl, hdl2, hemp, isLogEvent_log, hdevs,
                  List.filter_append]
        · by_cases hlen : (bp.processor (retained.map (·.body))).length = retained.length
          · rcases h2 : B2.resolveLoop bp.hasErrorHandler
                (retained.zip (bp.processor (retained.map (·.body)))) with ⟨evs2, rest2⟩
            rcases rest2 with ⟨aerrs2, n⟩
            rcases h1 : B1.resolveLoop bp.hasErrorHandler
                (retained.zip (bp.processor (retained.map (·.body)))) with ⟨evs1, aerrs1⟩
            have hrl := resolveLoop_logged bp.hasErrorHandler
              (retained.zip (bp.processor (retained.map (·.body))))
            rw [h1, h2] at hrl
            have hrl1 : evs2.filter (fun ev => !isLogEvent ev) = evs1 := hrl.1
            have hrl2 : aerrs2 = aerrs1 := hrl.2
            constructor <;>
              simp [B1.Process, B2.Process, hf, hdl, hdl2, hemp, hlen, h1, h2,
                    hrl1, hrl2, isLogEvent_log, isLogEvent_handlerCall, hdevs,
                    List.filter_append]
          · constructor <;>
              simp [B1.Process, B2.Process, hf, hdl, hdl2, hemp, hlen, isLogEvent_log,
                    isLogEvent_handlerCall, hdevs, List.filter_append]

end Natsjson
